import Mathlib

/-!
Verification of the `GymCompatibilityWrapper` environment-compatibility
adapter and the observation-layout transposition used by the DQN training
script (`RL/dqn_car.py`).

The adapter receives dynamically-typed Python values from the wrapped
environment.  We embed the universe of relevant Python runtime values as
`PyVal`: `None`, booleans, integers, floats (modelled as rationals — no
claim here depends on rounding), tuples, and string-keyed dictionaries.
`step`'s possible in-adapter exception (raised by the `float(...)` coercion
when the reward component is not a number) is modelled by returning
`Option`: `none` means the adapter itself raised.
-/

/-- A Python runtime value, restricted to the types the adapter inspects
or produces: `None`, `bool`, `int`, `float` (as `Rat`), tuples, and
dictionaries with string keys. -/
inductive PyVal where
  | none : PyVal
  | bool : Bool → PyVal
  | int : Int → PyVal
  | float : Rat → PyVal
  | tuple : List PyVal → PyVal
  | dict : List (String × PyVal) → PyVal
deriving Repr

/-- Python truthiness, `bool(v)`: `None` is falsy, numbers are truthy iff
nonzero, containers are truthy iff nonempty. -/
def truthy : PyVal → Bool
  | .none => false
  | .bool b => b
  | .int n => decide (n ≠ 0)
  | .float q => decide (q ≠ 0)
  | .tuple xs => !xs.isEmpty
  | .dict es => !es.isEmpty

/-- Python `float(v)`: succeeds on booleans, integers and floats; on the
other modelled values (`None`, tuples, dictionaries) `float` raises
`TypeError`, modelled as `Option.none`. -/
def pyFloat : PyVal → Option Rat
  | .bool b => some (if b then 1 else 0)
  | .int n => some (n : Rat)
  | .float q => some q
  | _ => Option.none

/-- Python `d.get(k, default)` on a string-keyed dictionary. -/
def dictGet (es : List (String × PyVal)) (k : String) (default : PyVal) : PyVal :=
  match es.find? (fun p => p.1 == k) with
  | some p => p.2
  | Option.none => default

/-- `v` is a Python `dict` (`isinstance(v, dict)`). -/
def PyVal.isDict : PyVal → Bool
  | .dict _ => true
  | _ => false

/-- The adapter's five-component step result
`(obs, reward, terminated, truncated, info)`.  `terminated` and
`truncated` are genuine booleans in every branch of the source
(`bool(...)` coercions or literals); `reward` and `info` are kept as
dynamically typed values so that the claims that they are always a float
and always a dictionary are facts to prove, not artifacts of the
embedding. -/
structure StepOut where
  obs : PyVal
  reward : PyVal
  terminated : Bool
  truncated : Bool
  info : PyVal
deriving Repr

/-- `GymCompatibilityWrapper.step`'s handling of the wrapped
environment's raw step result (`RL/dqn_car.py`, lines 34-70), as a
function of that raw result.  A 4-tuple is treated as legacy
`(obs, reward, done, info)`: `truncated` is the truthiness of the
`"TimeLimit.truncated"` entry when `info` is a dict (default `False`),
and `terminated = bool(done and not truncated)`.  A 5-tuple is modern
`(obs, reward, terminated, truncated, info)` passed through with `bool`
coercion of the flags.  Any other value — non-tuple or a tuple of another
arity — yields the raw value as observation with reward `0.0`, both
flags false and an empty info dict.  In both tuple branches
`float(reward)` can raise, modelled by `Option.none`; the source's
`try: n = len(result)` guard is unreachable in the embedding because a
tuple's length is always defined. -/
def wrapStep (result : PyVal) : Option StepOut :=
  match result with
  | .tuple [obs, reward, done, info] =>
    let truncated : Bool :=
      match info with
      | .dict es => truthy (dictGet es "TimeLimit.truncated" (.bool false))
      | _ => false
    let terminated : Bool := truthy done && !truncated
    match pyFloat reward with
    | some q =>
      some ⟨obs, .float q, terminated, truncated,
            if info.isDict then info else .dict []⟩
    | Option.none => Option.none
  | .tuple [obs, reward, terminated, truncated, info] =>
    match pyFloat reward with
    | some q =>
      some ⟨obs, .float q, truthy terminated, truthy truncated,
            if info.isDict then info else .dict []⟩
    | Option.none => Option.none
  | r => some ⟨r, .float 0, false, false, .dict []⟩

/-- `GymCompatibilityWrapper.reset`'s handling of the wrapped
environment's raw reset result (`RL/dqn_car.py`, lines 22-32): a
2-element tuple is split into `(obs, info)` unchanged; any other value
becomes the observation paired with a fresh empty info dict. -/
def wrapReset (result : PyVal) : PyVal × PyVal :=
  match result with
  | .tuple [obs, info] => (obs, info)
  | r => (r, .dict [])

/-- `GymCompatibilityWrapper.reset` as called: it forwards `seed` and
`options` to the wrapped environment's `reset` and post-processes the
result with the shape handling of `wrapReset`. -/
def wrapResetCall (envReset : Option Int → Option PyVal → PyVal)
    (seed : Option Int) (options : Option PyVal) : PyVal × PyVal :=
  wrapReset (envReset seed options)

/-- Modelled from the spec: the Observation Layout Transposer
(`VecTransposeImage`, applied at `RL/dqn_car.py` line 88) lives in the
external learning library, so its rewrite is modelled from the spec's
words: it transposes an image observation from height×width×channel
layout to channel×height×width. -/
def transposeToCHW {α : Type} {h w c : Nat}
    (img : Fin h → Fin w → Fin c → α) : Fin c → Fin h → Fin w → α :=
  fun ci hi wi => img hi wi ci

/-- Modelled from the spec: the inverse transposition, from
channel×height×width layout back to height×width×channel. -/
def transposeToHWC {α : Type} {h w c : Nat}
    (img : Fin c → Fin h → Fin w → α) : Fin h → Fin w → Fin c → α :=
  fun hi wi ci => img ci hi wi

/-- The image shape configured for the environment at construction
(`RL/dqn_car.py` line 78): height 84, width 84, 1 channel. -/
def imageShape : Nat × Nat × Nat := (84, 84, 1)

/-- C1: for every legacy 4-tuple step result whose info component is a
dictionary (and whose reward the `float` coercion accepts), the adapter
returns `truncated` equal to the truthiness of the info's
`"TimeLimit.truncated"` entry (false when the key is absent) and
`terminated = done AND NOT truncated`; in particular a truthy `done` with
the flag set true yields `terminated = false, truncated = true`, and a
truthy `done` with no flag yields `terminated = true, truncated = false`. -/
theorem legacy_step_flags (obs reward done : PyVal)
    (es : List (String × PyVal)) (q : Rat) (hq : pyFloat reward = some q) :
    wrapStep (.tuple [obs, reward, done, .dict es]) =
      some ⟨obs, .float q,
            truthy done && !truthy (dictGet es "TimeLimit.truncated" (.bool false)),
            truthy (dictGet es "TimeLimit.truncated" (.bool false)),
            .dict es⟩ := by
  simp [wrapStep, hq, PyVal.isDict]

/-- Witness for C1: a truthy `done` together with a true truncation flag
yields `terminated = false, truncated = true`. -/
theorem legacy_step_flags_witness :
    wrapStep (.tuple [.none, .float 2, .bool true,
        .dict [("TimeLimit.truncated", .bool true)]]) =
      some ⟨.none, .float 2, false, true,
            .dict [("TimeLimit.truncated", .bool true)]⟩ :=
  legacy_step_flags .none (.float 2) (.bool true)
    [("TimeLimit.truncated", .bool true)] 2 rfl

/-- C2: for every modern 5-tuple step result (whose reward the `float`
coercion accepts), the adapter passes the observation through unchanged,
coerces the reward to float, and passes `terminated` and `truncated`
through modulo boolean coercion. -/
theorem modern_step_passthrough (obs reward t tr info : PyVal) (q : Rat)
    (hq : pyFloat reward = some q) :
    wrapStep (.tuple [obs, reward, t, tr, info]) =
      some ⟨obs, .float q, truthy t, truthy tr,
            if info.isDict then info else .dict []⟩ := by
  simp [wrapStep, hq]

/-- Witness for C2: a concrete 5-tuple passes through with its flags
boolean-coerced. -/
theorem modern_step_passthrough_witness :
    wrapStep (.tuple [.int 9, .float 3, .int 1, .int 0, .dict []]) =
      some ⟨.int 9, .float 3, true, false, .dict []⟩ := by
  have h := modern_step_passthrough (.int 9) (.float 3) (.int 1) (.int 0)
    (.dict []) 3 rfl
  simpa using h

/-- Helper: on any result that is not a 4- or 5-tuple, `wrapStep` takes
the catch-all branch. -/
theorem wrapStep_fallback_eq (r : PyVal)
    (h : ∀ xs, r = PyVal.tuple xs → xs.length ≠ 4 ∧ xs.length ≠ 5) :
    wrapStep r = some ⟨r, .float 0, false, false, .dict []⟩ := by
  cases r with
  | tuple xs =>
    match xs, h xs rfl with
    | [], _ => rfl
    | [a], _ => rfl
    | [a, b], _ => rfl
    | [a, b, c], _ => rfl
    | [a, b, c, d], hh => exact absurd rfl hh.1
    | [a, b, c, d, e], hh => exact absurd rfl hh.2
    | a :: b :: c :: d :: e :: f :: rest, _ => rfl
  | none => rfl
  | bool b => rfl
  | int n => rfl
  | float q => rfl
  | dict es => rfl

/-- C3: every underlying step result that is not a tuple, or is a tuple
whose length is neither 4 nor 5, maps to the fallback
`(raw result, 0.0, False, False, {})` — a zero-reward, non-terminal step
rather than an exception.  (The source's third fallback trigger, a tuple
whose length cannot be measured, is unreachable: a tuple's length is
always defined.) -/
theorem malformed_step_fallback (r : PyVal)
    (h : ∀ xs, r = PyVal.tuple xs → xs.length ≠ 4 ∧ xs.length ≠ 5) :
    wrapStep r = some ⟨r, .float 0, false, false, .dict []⟩ :=
  wrapStep_fallback_eq r h

/-- Witness for C3: a bare integer step result degrades to the
zero-reward, non-terminal fallback. -/
theorem malformed_step_fallback_witness :
    wrapStep (.int 7) = some ⟨.int 7, .float 0, false, false, .dict []⟩ :=
  malformed_step_fallback (.int 7) (fun _ hx => PyVal.noConfusion hx)

/-- Counterexample to C4: a modern 5-tuple whose terminated and truncated
components are both `True` is passed through with both output flags true,
so the adapter does not guarantee the flags are mutually exclusive. -/
theorem both_flags_counterexample :
    (wrapStep (.tuple [.none, .float 0, .bool true, .bool true, .dict []])).map
        (fun out => out.terminated && out.truncated) = some true := rfl

/-- C4 as amended: whenever the adapter's output has terminated and
truncated both true, the underlying result was a 5-tuple whose terminated
and truncated components were both truthy (the pass-through branch); in
every other case — legacy 4-tuples and unrecognized shapes — the two
flags are never both true. -/
theorem flags_exclusive_unless_modern (r : PyVal) (out : StepOut)
    (h : wrapStep r = some out)
    (hb : out.terminated = true ∧ out.truncated = true) :
    ∃ obs reward t tr info, r = PyVal.tuple [obs, reward, t, tr, info] ∧
      truthy t = true ∧ truthy tr = true := by
  cases r with
  | tuple xs =>
    match xs with
    | [] => injection h with h; subst h; simp at hb
    | [a] => injection h with h; subst h; simp at hb
    | [a, b] => injection h with h; subst h; simp at hb
    | [a, b, c] => injection h with h; subst h; simp at hb
    | [obs, reward, done, info] =>
      simp only [wrapStep] at h
      split at h
      · injection h with h
        subst h
        simp only at hb
        rw [hb.2] at hb
        simp at hb
      · exact Option.noConfusion h
    | [obs, reward, t, tr, info] =>
      simp only [wrapStep] at h
      split at h
      · injection h with h
        subst h
        exact ⟨obs, reward, t, tr, info, rfl, hb.1, hb.2⟩
      · exact Option.noConfusion h
    | a :: b :: c :: d :: e :: f :: rest =>
      injection h with h; subst h; simp at hb
  | none => injection h with h; subst h; simp at hb
  | bool b => injection h with h; subst h; simp at hb
  | int n => injection h with h; subst h; simp at hb
  | float q => injection h with h; subst h; simp at hb
  | dict es => injection h with h; subst h; simp at hb

/-- Witness for the amended C4: at a concrete 5-tuple with both flags
truthy, the theorem locates the both-true output in the pass-through
branch. -/
theorem flags_exclusive_unless_modern_witness :
    ∃ obs reward t tr info,
      PyVal.tuple [.int 3, .float 1, .int 1, .bool true, .dict []] =
        PyVal.tuple [obs, reward, t, tr, info] ∧
      truthy t = true ∧ truthy tr = true :=
  flags_exclusive_unless_modern
    (.tuple [.int 3, .float 1, .int 1, .bool true, .dict []])
    ⟨.int 3, .float 1, true, true, .dict []⟩ rfl ⟨rfl, rfl⟩

/-- Counterexample to C5: on the 4-tuple `(None, None, True, {})` the
adapter itself raises — `float(None)` is a `TypeError` — even though the
wrapped environment's step returned normally, so step does not return for
every component type. -/
theorem step_raises_counterexample :
    wrapStep (.tuple [.none, .none, .bool true, .dict []]) = Option.none := rfl

/-- C5 as amended: the adapter's step raises exactly when the underlying
result is a 4- or 5-tuple whose reward component the `float` coercion
rejects; for every other result — any non-tuple value or tuple of another
arity — it returns without raising.  (Beyond that, the adapter raises
only if the wrapped environment's own step call raises.) -/
theorem step_raises_iff_bad_reward (r : PyVal) :
    wrapStep r = Option.none ↔
      ∃ obs reward x y, pyFloat reward = Option.none ∧
        (r = PyVal.tuple [obs, reward, x, y] ∨
          ∃ z, r = PyVal.tuple [obs, reward, x, y, z]) := by
  constructor
  · intro h
    cases r with
    | tuple xs =>
      match xs with
      | [] => exact Option.noConfusion h
      | [a] => exact Option.noConfusion h
      | [a, b] => exact Option.noConfusion h
      | [a, b, c] => exact Option.noConfusion h
      | [obs, reward, done, info] =>
        simp only [wrapStep] at h
        split at h
        · exact Option.noConfusion h
        · rename_i heq
          exact ⟨obs, reward, done, info, heq, Or.inl rfl⟩
      | [obs, reward, t, tr, info] =>
        simp only [wrapStep] at h
        split at h
        · exact Option.noConfusion h
        · rename_i heq
          exact ⟨obs, reward, t, tr, heq, Or.inr ⟨info, rfl⟩⟩
      | a :: b :: c :: d :: e :: f :: rest => exact Option.noConfusion h
    | none => exact Option.noConfusion h
    | bool b => exact Option.noConfusion h
    | int n => exact Option.noConfusion h
    | float q => exact Option.noConfusion h
    | dict es => exact Option.noConfusion h
  · rintro ⟨obs, reward, x, y, hbad, rfl | ⟨z, rfl⟩⟩ <;>
      simp [wrapStep, hbad]

/-- C6: the adapter's reset forwards seed and options to the wrapped
environment's reset; a 2-element result is returned as `(obs, info)`
unchanged, and any other result becomes the observation paired with a
synthesized empty info dict. -/
theorem reset_forwarding_and_shape
    (envReset : Option Int → Option PyVal → PyVal)
    (seed : Option Int) (options : Option PyVal) (a b r : PyVal) :
    wrapResetCall envReset seed options = wrapReset (envReset seed options) ∧
    wrapReset (.tuple [a, b]) = (a, b) ∧
    ((∀ x y, r ≠ PyVal.tuple [x, y]) → wrapReset r = (r, .dict [])) := by
  refine ⟨rfl, rfl, fun hr => ?_⟩
  cases r with
  | tuple xs =>
    match xs, hr with
    | [], _ => rfl
    | [x], _ => rfl
    | [x, y], hr => exact absurd rfl (hr x y)
    | x :: y :: z :: rest, _ => rfl
  | none => rfl
  | bool b => rfl
  | int n => rfl
  | float q => rfl
  | dict es => rfl

/-- C7 (modelled from the spec, the transposer living in the external
learning library): transposing an image observation of any shape — in
particular the configured `imageShape` of 84×84×1 — from
height×width×channel to channel×height×width and back is the identity. -/
theorem transpose_round_trip {α : Type} (h w c : Nat)
    (img : Fin h → Fin w → Fin c → α) :
    transposeToHWC (transposeToCHW img) = img := rfl

/-- C8: for every legacy 4-tuple step result the adapter accepts, the
output's terminated and truncated flags are never both true, because
terminated is computed as `done AND NOT truncated` — for all values of
`done` and of the truncation flag. -/
theorem legacy_flags_never_both (obs reward done info : PyVal)
    (out : StepOut)
    (h : wrapStep (.tuple [obs, reward, done, info]) = some out) :
    (out.terminated && out.truncated) = false := by
  simp only [wrapStep] at h
  split at h
  · injection h with h
    subst h
    simp only
    cases hT :
        (match info with
          | PyVal.dict es => truthy (dictGet es "TimeLimit.truncated" (.bool false))
          | _ => false) <;>
      simp [hT]
  · exact Option.noConfusion h

/-- Witness for C8: a truthy done with a true truncation flag still never
sets both output flags. -/
theorem legacy_flags_never_both_witness :
    (StepOut.terminated
        ⟨.int 5, .float 1, false, true, .dict [("TimeLimit.truncated", .bool true)]⟩ &&
      StepOut.truncated
        ⟨.int 5, .float 1, false, true, .dict [("TimeLimit.truncated", .bool true)]⟩) =
      false :=
  legacy_flags_never_both (.int 5) (.float 1) (.int 1)
    (.dict [("TimeLimit.truncated", .bool true)])
    ⟨.int 5, .float 1, false, true, .dict [("TimeLimit.truncated", .bool true)]⟩ rfl

/-- C9: the info component of the adapter's output is always a
dictionary: a non-dict info in a 4-tuple is replaced by an empty dict and
treated as carrying no truncation flag (so `truncated` is false), a
non-dict info in a 5-tuple is replaced by an empty dict, and the
malformed-shape fallback also returns an empty dict. -/
theorem step_info_always_dict (r obs rw x y i : PyVal) (out : StepOut) :
    (wrapStep r = some out → out.info.isDict = true) ∧
    (i.isDict = false →
      (wrapStep (.tuple [obs, rw, x, i]) = some out →
        out.info = .dict [] ∧ out.truncated = false) ∧
      (wrapStep (.tuple [obs, rw, x, y, i]) = some out →
        out.info = .dict [])) ∧
    ((∀ xs, r = PyVal.tuple xs → xs.length ≠ 4 ∧ xs.length ≠ 5) →
      wrapStep r = some out → out.info = .dict []) := by
  refine ⟨fun h => ?_, fun hi => ⟨fun h => ?_, fun h => ?_⟩, fun hs h => ?_⟩
  · cases r with
    | tuple xs =>
      match xs with
      | [] => injection h with h; subst h; rfl
      | [a] => injection h with h; subst h; rfl
      | [a, b] => injection h with h; subst h; rfl
      | [a, b, c] => injection h with h; subst h; rfl
      | [o, w, d, inf] =>
        simp only [wrapStep] at h
        split at h
        · injection h with h
          subst h
          cases hinf : inf.isDict
          · simp [hinf, PyVal.isDict]
          · simp [hinf]
        · exact Option.noConfusion h
      | [o, w, t, tr, inf] =>
        simp only [wrapStep] at h
        split at h
        · injection h with h
          subst h
          cases hinf : inf.isDict
          · simp [hinf, PyVal.isDict]
          · simp [hinf]
        · exact Option.noConfusion h
      | a :: b :: c :: d :: e :: f :: rest =>
        injection h with h; subst h; rfl
    | none => injection h with h; subst h; rfl
    | bool b => injection h with h; subst h; rfl
    | int n => injection h with h; subst h; rfl
    | float q => injection h with h; subst h; rfl
    | dict es => injection h with h; subst h; rfl
  · simp only [wrapStep] at h
    split at h
    · injection h with h
      subst h
      refine ⟨by simp [hi], ?_⟩
      cases i with
      | dict es => exact absurd hi (by simp [PyVal.isDict])
      | none => rfl
      | bool b => rfl
      | int n => rfl
      | float q => rfl
      | tuple xs => rfl
    · exact Option.noConfusion h
  · simp only [wrapStep] at h
    split at h
    · injection h with h
      subst h
      simp [hi]
    · exact Option.noConfusion h
  · rw [wrapStep_fallback_eq r hs] at h
    injection h with h
    subst h
    rfl

/-- C10: the reward component of the adapter's output is always a float:
the 4- and 5-tuple branches coerce the underlying reward with `float`,
and the malformed-shape fallback returns exactly `0.0`. -/
theorem step_reward_always_float (r obs rw x y i : PyVal) (q : Rat)
    (out : StepOut) :
    (wrapStep r = some out → ∃ p, out.reward = .float p) ∧
    (pyFloat rw = some q → wrapStep (.tuple [obs, rw, x, i]) = some out →
      out.reward = .float q) ∧
    (pyFloat rw = some q → wrapStep (.tuple [obs, rw, x, y, i]) = some out →
      out.reward = .float q) ∧
    ((∀ xs, r = PyVal.tuple xs → xs.length ≠ 4 ∧ xs.length ≠ 5) →
      wrapStep r = some out → out.reward = .float 0) := by
  refine ⟨fun h => ?_, fun hq h => ?_, fun hq h => ?_, fun hs h => ?_⟩
  · cases r with
    | tuple xs =>
      match xs with
      | [] => injection h with h; subst h; exact ⟨0, rfl⟩
      | [a] => injection h with h; subst h; exact ⟨0, rfl⟩
      | [a, b] => injection h with h; subst h; exact ⟨0, rfl⟩
      | [a, b, c] => injection h with h; subst h; exact ⟨0, rfl⟩
      | [o, w, d, inf] =>
        simp only [wrapStep] at h
        split at h
        · injection h with h
          subst h
          rename_i p _
          exact ⟨p, rfl⟩
        · exact Option.noConfusion h
      | [o, w, t, tr, inf] =>
        simp only [wrapStep] at h
        split at h
        · injection h with h
          subst h
          rename_i p _
          exact ⟨p, rfl⟩
        · exact Option.noConfusion h
      | a :: b :: c :: d :: e :: f :: rest =>
        injection h with h; subst h; exact ⟨0, rfl⟩
    | none => injection h with h; subst h; exact ⟨0, rfl⟩
    | bool b => injection h with h; subst h; exact ⟨0, rfl⟩
    | int n => injection h with h; subst h; exact ⟨0, rfl⟩
    | float p => injection h with h; subst h; exact ⟨0, rfl⟩
    | dict es => injection h with h; subst h; exact ⟨0, rfl⟩
  · simp only [wrapStep, hq] at h
    injection h with h
    subst h
    rfl
  · simp only [wrapStep, hq] at h
    injection h with h
    subst h
    rfl
  · rw [wrapStep_fallback_eq r hs] at h
    injection h with h
    subst h
    rfl
